import Mathlib

set_option maxRecDepth 10000

/-!
Verification development for the groupme-cli repository.

The definitions below are shallow embeddings of the Python source:
  - src/utils.py        : watch_group (Faye handshake, subscribe, demultiplexing),
                          export_group_messages, stats_from_messages
  - src/groupme_api.py  : get_group_messages_latest, get_direct_messages,
                          search_direct_messages

JSON values that the Python code receives are modelled at the granularity the
code observes them: a dict field that is absent or JSON null is modelled as
Option.none, since dict.get returns Python None in both cases and the code
only ever compares the result against None.  Python truthiness, where the code
uses it (if before_id:, ext.get("data"), or-chains), is modelled explicitly.
-/

namespace GroupMe

/-! ## Wire values (JSON) with Python truthiness -/

/-- A JSON value as decoded by json.loads, excluding null.  A field whose
value may be null is modelled as an Option of this type, since the Python
code cannot distinguish an absent key from a null value through dict.get. -/
inductive JVal where
  | jbool (b : Bool)
  | jnum (n : Int)
  | jstr (s : String)
  | jarr (elems : List JVal)
  | jobj (fields : List (String × JVal))

/-- Python truthiness of a non-null JSON value: False, 0, empty string,
empty array and empty object are falsy. -/
def truthy : JVal → Bool
  | .jbool b => b
  | .jnum n => n != 0
  | .jstr s => s != ""
  | .jarr elems => !elems.isEmpty
  | .jobj fields => !fields.isEmpty

/-! ## Subscription protocol handler: handshake reply scan (src/utils.py lines 30-48) -/

/-- One entry of a batched handshake reply.  Faye may include arbitrary JSON
values in the batch; the code skips entries that are not dicts
(isinstance(item, dict)), so non-dict entries are kept abstract. -/
inductive PItem where
  | obj (channel : Option String) (clientId : Option String)
  | nonObj
deriving DecidableEq

/-- A parsed handshake reply: json.loads yields either a list of messages or a
single message object (src/utils.py line 33: isinstance(resp, list)). -/
inductive HsResp where
  | single (channel : Option String) (clientId : Option String)
  | batch (items : List PItem)
deriving DecidableEq

/-- Scan of a batched reply, mirroring the for-loop at src/utils.py lines
35-38: the first dict entry whose channel equals "/meta/handshake" and whose
clientId is truthy (a non-empty string) supplies the client id; the loop
breaks there.  If no entry qualifies, the scan leaves client_id as None. -/
def scanClientId : List PItem → Option String
  | [] => none
  | .nonObj :: rest => scanClientId rest
  | .obj channel clientId :: rest =>
      if channel = some "/meta/handshake" ∧ clientId.getD "" ≠ "" then clientId
      else scanClientId rest

/-- Client id extraction over the whole reply (src/utils.py lines 32-40).
For a single (non-list) reply the code takes resp.get("clientId") without
inspecting the channel or applying truthiness. -/
def handshake_client_id : HsResp → Option String
  | .batch items => scanClientId items
  | .single _ clientId => clientId

/-- Modelled from the spec: the error taxonomy of spec section 7 names a
ProtocolError for a malformed or unexpected handshake reply.  The source
under src/ defines no such error type; this type exists only so that the
claimed failure behaviour can be stated. -/
inductive ProtocolError where
  | noSessionId
deriving DecidableEq

/-- One subscribe frame as sent by the loop at src/utils.py lines 42-47:
channel "/meta/subscribe", the extracted client id (possibly None), and the
requested channel as the subscription. -/
structure SubFrame where
  channel : String
  clientId : Option String
  subscription : String
deriving DecidableEq

/-- Continuation of watch_group after the handshake reply is parsed
(src/utils.py lines 32-48): the client id is extracted and then one
subscribe frame is sent per requested channel.  The source has no failure
path here, so the result is always Except.ok; the Except codomain exists to
make the claimed ProtocolError failure statable. -/
def watch_subscribe_frames (resp : HsResp) (channels : List String) :
    Except ProtocolError (List SubFrame) :=
  Except.ok (channels.map fun ch => ⟨"/meta/subscribe", handshake_client_id resp, ch⟩)

/-- Claim-side predicate: a batch entry carries a session identifier for the
handshake meta-channel when it is a dict whose channel is "/meta/handshake"
and whose client id is a non-empty string. -/
def carriesSession : PItem → Prop
  | .obj channel clientId =>
      channel = some "/meta/handshake" ∧ ∃ s, clientId = some s ∧ s ≠ ""
  | .nonObj => False

instance : DecidablePred carriesSession := by
  intro it
  cases it with
  | obj channel clientId =>
      cases clientId with
      | none =>
          refine isFalse ?_
          rintro ⟨-, s, hs, -⟩
          exact Option.noConfusion hs
      | some s =>
          by_cases hch : channel = some "/meta/handshake"
          · by_cases hs : s = ""
            · refine isFalse ?_
              rintro ⟨-, t, ht, hne⟩
              exact hne (by cases ht; exact hs)
            · exact isTrue ⟨hch, s, rfl, hs⟩
          · refine isFalse ?_
            rintro ⟨h, -⟩
            exact hch h
  | nonObj => exact isFalse id

/-- Claim-side predicate: the handshake reply contains no entry carrying a
session identifier for the handshake meta-channel.  For a single reply this
means the reply carries no client id. -/
def noSessionEntry : HsResp → Prop
  | .batch items => ∀ it ∈ items, ¬ carriesSession it
  | .single _ clientId => clientId = none

instance : DecidablePred noSessionEntry := by
  intro r
  cases r with
  | single channel clientId => exact inferInstanceAs (Decidable (_ = _))
  | batch items => exact inferInstanceAs (Decidable (∀ _ ∈ _, _))

/-! ## Event demultiplexer (src/utils.py lines 50-62) -/

/-- Value of the "ext" field of an envelope: the code requires it to be a
dict (isinstance(env.get("ext"), dict)) before reading its "data" key; any
other JSON value is ignored. -/
inductive ExtField where
  | extObj (data : Option JVal)
  | extOther

/-- An envelope as consumed by the listen loop: only the fields the
demultiplexer reads are modelled; none stands for absent-or-null. -/
structure Envelope where
  channel : Option String := none
  data : Option JVal := none
  ext : Option ExtField := none

/-- Payload extraction for one envelope (src/utils.py lines 58-62):
payload = env.get("data"); if payload is None and env.get("ext") is a dict
whose "data" value is truthy, the ext data is used; the envelope yields an
event iff the resulting payload is not None. -/
def extract_payload (env : Envelope) : Option JVal :=
  match env.data with
  | some p => some p
  | none =>
      match env.ext with
      | some (.extObj (some d)) => if truthy d then some d else none
      | _ => none

/-! ## Paginated fetcher (src/groupme_api.py lines 186-211, 251-272, 287-312
and src/utils.py lines 65-77) -/

/-- A message as consumed by the pagination layer: only the fields the loops
read are modelled.  The id is the provider-assigned identifier read as
messages[-1]["id"]; text is the free-text field read by the client-side
search, with none standing for absent-or-null. -/
structure RMsg where
  id : String
  text : Option String := none
deriving DecidableEq

/-- Cursor parameter actually sent with a request: the code only includes
before_id in the request params when it is truthy (if before_id:), so a None
cursor and an empty-string cursor both mean "no cursor". -/
def cursorParam : Option String → Option String
  | some c => if c = "" then none else some c
  | none => none

/-- Items of the resource strictly after (older than) the first item whose id
is the given cursor; an unknown cursor yields no items. -/
def dropAfterId : List RMsg → String → List RMsg
  | [], _ => []
  | m :: rest, c => if m.id = c then rest else dropAfterId rest c

/-- Honest page source over a fixed resource src listed newest-first: a fetch
with no cursor returns the newest lim items, and a fetch with cursor c
returns the lim items following the item with id c.  This models the REST
collection that the claims quantify over. -/
def fetchSlice (src : List RMsg) : Option String → Nat → List RMsg
  | none, lim => src.take lim
  | some c, lim => (dropAfterId src c).take lim

/-- Bounded pagination loop shared verbatim by get_group_messages_latest
(src/groupme_api.py lines 197-210) and get_direct_messages (lines 258-271);
the two Python bodies differ only in the endpoint and the response key, which
are abstracted into the fetch argument.  Arguments mirror the loop state:
collected, before_id, remaining; the trace records each issued request as
(cursor param, batch limit).  The fuel argument bounds the iteration count;
remaining strictly decreases on every non-breaking iteration, so an initial
fuel equal to the initial remaining is never exhausted early. -/
def pageLoop (fetch : Option String → Nat → List RMsg) (limit : Nat) :
    Nat → List RMsg → Option String → Nat → List (Option String × Nat) →
    List RMsg × List (Option String × Nat)
  | 0, collected, _, _, trace => (collected, trace)
  | fuel + 1, collected, before_id, remaining, trace =>
      if remaining = 0 then (collected, trace)
      else
        let batch := min 100 remaining
        let cur := cursorParam before_id
        let messages := fetch cur batch
        let trace' := trace ++ [(cur, batch)]
        if messages.isEmpty then (collected, trace')
        else
          let collected' := collected ++ messages
          let before' := messages.getLast?.map RMsg.id
          if messages.length < batch then (collected', trace')
          else pageLoop fetch limit fuel collected' before' (limit - collected'.length) trace'

/-- Latest-N fetch for group messages (src/groupme_api.py lines 186-211): a
non-positive limit short-circuits to an empty result with no requests;
otherwise the bounded loop runs and the result is truncated to limit
(collected[:limit]).  The second component is the trace of issued requests. -/
def get_group_messages_latest (fetch : Option String → Nat → List RMsg) (limit : Int) :
    List RMsg × List (Option String × Nat) :=
  if limit ≤ 0 then ([], [])
  else
    let out := pageLoop fetch limit.toNat limit.toNat [] none limit.toNat []
    (out.1.take limit.toNat, out.2)

/-- Latest-N fetch for direct messages (src/groupme_api.py lines 251-272);
the body is identical to get_group_messages_latest up to the endpoint and the
response key, both abstracted into the fetch argument. -/
def get_direct_messages (fetch : Option String → Nat → List RMsg) (limit : Int) :
    List RMsg × List (Option String × Nat) :=
  if limit ≤ 0 then ([], [])
  else
    let out := pageLoop fetch limit.toNat limit.toNat [] none limit.toNat []
    (out.1.take limit.toNat, out.2)

/-- Unbounded export loop (src/utils.py lines 67-77): fetch a page of up to
100 with the current before_id, stop on an empty page, yield the page, set
before_id to the id of the last (oldest) item of the page, and stop after a
short page.  The fetch argument models client.get_group_messages with
limit=100, which receives the raw before_id value; the trace records each
call as (before_id passed, page returned).  Fuel bounds the unbounded while
loop of the source. -/
def exportLoop (fetch : Option String → List RMsg) :
    Nat → Option String → List RMsg → List (Option String × List RMsg) →
    List RMsg × List (Option String × List RMsg)
  | 0, _, acc, trace => (acc, trace)
  | fuel + 1, before_id, acc, trace =>
      let messages := fetch before_id
      let trace' := trace ++ [(before_id, messages)]
      if messages.isEmpty then (acc, trace')
      else
        let acc' := acc ++ messages
        let before' := messages.getLast?.map RMsg.id
        if messages.length < 100 then (acc', trace')
        else exportLoop fetch fuel before' acc' trace'

/-- Full-history export (src/utils.py lines 65-77): the loop starts with no
cursor and an empty accumulator. -/
def export_group_messages (fetch : Option String → List RMsg) (fuel : Nat) :
    List RMsg × List (Option String × List RMsg) :=
  exportLoop fetch fuel none [] []

/-! ## Client-side search (src/groupme_api.py lines 287-312) -/

/-- Whether the needle occurs as a leading block of the haystack. -/
def charsLead : List Char → List Char → Bool
  | [], _ => true
  | _ :: _, [] => false
  | a :: as', b :: bs => a = b && charsLead as' bs

/-- Whether the needle occurs contiguously anywhere in the haystack; this
models the Python expression q in text on already-lowercased strings.  An
empty needle occurs in every haystack. -/
def charsHave : List Char → List Char → Bool
  | needle, [] => charsLead needle []
  | needle, b :: bs => charsLead needle (b :: bs) || charsHave needle bs

/-- ASCII lowercasing of one character, as str.lower acts on the ASCII
range (the only range any claim exercises). -/
def lowerChar (c : Char) : Char :=
  if 'A' ≤ c ∧ c ≤ 'Z' then Char.ofNat (c.toNat + 32) else c

/-- Case-insensitive substring match of the query against a message's text
field, as computed at src/groupme_api.py lines 298 and 305-306: a None query
and a missing text are both coerced to the empty string before lowercasing. -/
def textMatches (query : Option String) (m : RMsg) : Bool :=
  charsHave ((query.getD "").toList.map lowerChar) ((m.text.getD "").toList.map lowerChar)

/-- Search loop (src/groupme_api.py lines 299-311): while fewer than
max_pages pages have been scanned, fetch a page of up to 100, stop on an
empty page, keep the page's matching messages, advance the cursor to the
page's last id, and stop after a short page.  The fetch argument models
get_direct_messages_raw with limit=100, receiving the request cursor param;
the trace records each scanned page as (cursor param, page). -/
def searchLoop (fetch : Option String → List RMsg) (max_pages : Nat) (query : Option String) :
    Nat → List RMsg → Option String → Nat → List (Option String × List RMsg) →
    List RMsg × List (Option String × List RMsg)
  | 0, results, _, _, trace => (results, trace)
  | fuel + 1, results, before_id, pages, trace =>
      if max_pages ≤ pages then (results, trace)
      else
        let cur := cursorParam before_id
        let msgs := fetch cur
        if msgs.isEmpty then (results, trace ++ [(cur, msgs)])
        else
          let results' := results ++ msgs.filter (textMatches query)
          let before' := msgs.getLast?.map RMsg.id
          let trace' := trace ++ [(cur, msgs)]
          if msgs.length < 100 then (results', trace')
          else searchLoop fetch max_pages query fuel results' before' (pages + 1) trace'

/-- Client-side direct-message search (src/groupme_api.py lines 287-312).
Fuel equal to max_pages suffices: the page counter increases by one on every
non-breaking iteration and the loop guard requires pages < max_pages. -/
def search_direct_messages (fetch : Option String → List RMsg) (query : Option String)
    (max_pages : Nat) : List RMsg × List (Option String × List RMsg) :=
  searchLoop fetch max_pages query (max_pages + 1) [] none 0 []

/-! ## Aggregator: stats_from_messages (src/utils.py lines 80-101) -/

/-- Value of the created_at field when present and non-null: GroupMe delivers
integer timestamps, and a string value models a malformed timestamp that
int() either parses or rejects with a ValueError. -/
inductive CVal where
  | cnum (n : Int)
  | cstr (s : String)
deriving DecidableEq

/-- Python truthiness of a created_at value: 0 and the empty string are
falsy. -/
def cvalTruthy : CVal → Bool
  | .cnum n => n != 0
  | .cstr s => s != ""

/-- Digit accumulation for decimal parsing. -/
def parseDigitsAux : List Char → Nat → Option Nat
  | [], acc => some acc
  | c :: cs, acc =>
      if c.isDigit then parseDigitsAux cs (acc * 10 + (c.toNat - 48)) else none

/-- Parse of a non-empty all-digit character sequence. -/
def parseDigits : List Char → Option Nat
  | [] => none
  | cs => parseDigitsAux cs 0

/-- Application of Python int() to a string: an optional sign followed by at
least one decimal digit (the further whitespace and underscore tolerance of
int() is not relevant to any claim), with none modelling the ValueError
raised on an unparsable string. -/
def pyParseInt (s : String) : Option Int :=
  match s.toList with
  | '-' :: rest => (parseDigits rest).map fun n => -(n : Int)
  | '+' :: rest => (parseDigits rest).map fun n => (n : Int)
  | cs => (parseDigits cs).map fun n => (n : Int)

/-- Application of Python int() to a created_at value: a number passes
through and a string is parsed as a decimal integer, with none modelling the
ValueError raised on an unparsable string. -/
def cvalToInt : CVal → Option Int
  | .cnum n => some n
  | .cstr s => pyParseInt s

/-- A message as consumed by stats_from_messages: name and sender_id with
none for absent-or-null, the created_at field, and the favorited_by list of
liker ids (len is all the code takes of it). -/
structure SMsg where
  name : Option String := none
  sender_id : Option String := none
  created_at : Option CVal := none
  favorited_by : List String := []
deriving DecidableEq

/-- Sender key of a message (src/utils.py line 86): m.get("name") or
m.get("sender_id"), so a missing, null or empty name falls through to the raw
sender_id value, which may itself be None. -/
def userKey (m : SMsg) : Option String :=
  match m.name with
  | some s => if s = "" then m.sender_id else some s
  | none => m.sender_id

/-- Timestamp as computed at src/utils.py line 91: ts = int(m.get("created_at")
or 0).  A missing or falsy created_at is coerced to 0; a non-falsy value goes
through int(), whose ValueError (none) routes the item past the histogram
update via the except clause. -/
def tsOf (m : SMsg) : Option Int :=
  match m.created_at with
  | none => some 0
  | some v => if cvalTruthy v then cvalToInt v else some 0

/-- Hour bucket of a timestamp (src/utils.py line 92): (ts // 3600) % 24 with
Python floor division and non-negative modulus. -/
def hourOf (ts : Int) : Int :=
  (Int.fdiv ts 3600) % 24

/-- Counter increment preserving insertion order, as a Python
collections.Counter does: an existing key is incremented in place and a new
key is appended. -/
def bump {α : Type} [DecidableEq α] (l : List (α × Nat)) (k : α) : List (α × Nat) :=
  match l with
  | [] => [(k, 1)]
  | (k', c) :: rest => if k' = k then (k', c + 1) :: rest else (k', c) :: bump rest k

/-- Total count recorded for a key in a counter. -/
def lookupCount {α : Type} [DecidableEq α] (l : List (α × Nat)) (k : α) : Nat :=
  (l.map fun p => if p.1 = k then p.2 else 0).sum

/-- Stable insertion into a descending-by-key list: the new element goes
before the first element whose key is not larger, so that among equal keys
earlier input elements stay first. -/
def insertDesc {α : Type} (key : α → Nat) (a : α) : List α → List α
  | [] => [a]
  | b :: bs => if key b ≤ key a then a :: b :: bs else b :: insertDesc key a bs

/-- Stable descending sort by a Nat key.  This models both Python
list.sort(reverse=True, key=...) at src/utils.py line 96 and
Counter.most_common, which are stable: elements with equal keys keep their
original order. -/
def sortDesc {α : Type} (key : α → Nat) : List α → List α
  | [] => []
  | x :: xs => insertDesc key x (sortDesc key xs)

/-- Stable insertion into an ascending-by-key list. -/
def insertAsc {α : Type} (key : α → Int) (a : α) : List α → List α
  | [] => [a]
  | b :: bs => if key a ≤ key b then a :: b :: bs else b :: insertAsc key a bs

/-- Ascending sort by an Int key, modelling sorted(hour_hist.items()) at
src/utils.py line 100 (the keys of a Counter are distinct, so sorting pairs
lexicographically is sorting by key). -/
def sortAsc {α : Type} (key : α → Int) : List α → List α
  | [] => []
  | x :: xs => insertAsc key x (sortAsc key xs)

/-- Accumulators of the single pass over messages (src/utils.py lines 82-95):
the per-user counter, the (likes, message) pair list, and the hour counter,
in insertion order. -/
structure StatsAcc where
  count_by_user : List (Option String × Nat)
  likes_by_message : List (Nat × SMsg)
  hour_hist : List (Int × Nat)

/-- One iteration of the for-loop at src/utils.py lines 85-95. -/
def statsStep (acc : StatsAcc) (m : SMsg) : StatsAcc :=
  { count_by_user := bump acc.count_by_user (userKey m)
    likes_by_message := acc.likes_by_message ++ [(m.favorited_by.length, m)]
    hour_hist :=
      match tsOf m with
      | some ts => bump acc.hour_hist (hourOf ts)
      | none => acc.hour_hist }

/-- Result shape of stats_from_messages (src/utils.py lines 97-101). -/
structure Stats where
  top_posters : List (Option String × Nat)
  most_liked : List (Nat × SMsg)
  hour_hist : List (Int × Nat)

/-- Statistics over a message sequence (src/utils.py lines 80-101): one pass
accumulates the three counters, then top_posters is most_common(10) of the
user counter, most_liked is the stable descending sort of the (likes,
message) pairs truncated to 10, and hour_hist is the hour counter sorted by
hour ascending. -/
def stats_from_messages (msgs : List SMsg) : Stats :=
  let acc := msgs.foldl statsStep ⟨[], [], []⟩
  { top_posters := (sortDesc Prod.snd acc.count_by_user).take 10
    most_liked := (sortDesc Prod.fst acc.likes_by_message).take 10
    hour_hist := sortAsc Prod.fst acc.hour_hist }

/-- Claim-side bucket rule of the amended claim C2: an item with a missing or
falsy created_at lands in hour bucket 0, an unparsable created_at is
excluded, and any other timestamp lands in bucket (ts // 3600) % 24. -/
def histBucket (m : SMsg) : Option Int :=
  match m.created_at with
  | none => some 0
  | some v =>
      if cvalTruthy v then
        match cvalToInt v with
        | some ts => some (hourOf ts)
        | none => none
      else some 0

/-! ## Proof-side notions and concrete test fixtures -/

/-- Cursor state after having collected exactly the items of done: the id of
the last collected item, or none before the first fetch. -/
def curOf (done : List RMsg) : Option String :=
  done.getLast?.map RMsg.id

/-- A recorded request whose page over the given resource came back full. -/
def pageFull (src : List RMsg) (e : Option String × Nat) : Prop :=
  (fetchSlice src e.1 e.2).length = e.2

/-- A recorded request whose page over the given resource came back empty or
shorter than the requested batch limit. -/
def pageShortOrEmpty (src : List RMsg) (e : Option String × Nat) : Prop :=
  fetchSlice src e.1 e.2 = [] ∨ (fetchSlice src e.1 e.2).length < e.2

/-- Handshake reply batch with no entry for the handshake meta-channel. -/
def c1resp : HsResp :=
  HsResp.batch [PItem.obj (some "/meta/connect") none]

/-- Handshake reply batch from the spec's example: a handshake entry carrying
client id "abc" followed by a connect entry. -/
def c1okResp : HsResp :=
  HsResp.batch [PItem.obj (some "/meta/handshake") (some "abc"),
                PItem.obj (some "/meta/connect") none]

/-- Envelope carrying a direct data payload, from the claim C7 example. -/
def c7dataEnv : Envelope :=
  { channel := some "/x", data := some (JVal.jobj [("type", JVal.jstr "like")]) }

/-- Envelope with neither data nor ext, from the claim C7 example. -/
def c7bareEnv : Envelope :=
  { channel := some "/x" }

/-- Envelope whose ext.data field is present but falsy (an empty object). -/
def c7falsyEnv : Envelope :=
  { channel := some "/x", ext := some (ExtField.extObj (some (JVal.jobj []))) }

/-- Envelope with no direct data field and a truthy ext.data payload. -/
def c7extEnv : Envelope :=
  { channel := some "/y", ext := some (ExtField.extObj (some (JVal.jstr "x"))) }

/-- Resource of 101 messages with pairwise distinct ids, one of which is the
empty string (position 100, the last item of the first full page). -/
def c3src : List RMsg :=
  (List.range 101).map fun i =>
    ⟨if i = 99 then "" else String.mk [Char.ofNat (161 + i)], none⟩

/-- Resource of 100 messages with non-empty ids where the id of the last item
of the first full page repeats the id of the newest item. -/
def c4src : List RMsg :=
  (List.range 100).map fun i =>
    ⟨if i = 99 then String.mk [Char.ofNat 161] else String.mk [Char.ofNat (161 + i)], none⟩

/-- Resource of 237 messages with ids "1" .. "237", newest first, for the
three-page export scenario of claim C5. -/
def c5src : List RMsg :=
  (List.range 237).map fun i => ⟨toString (i + 1), none⟩

/-- Deterministic mock of client.get_group_messages over c5src with
limit=100: get_group_messages puts before_id into the request params only
when truthy and clamps the limit to 100 (src/groupme_api.py lines 234-243). -/
def c5fetch : Option String → List RMsg :=
  fun b => fetchSlice c5src (cursorParam b) 100

/-- Single mock page with texts "hello world", "HELLO there", "bye" for the
search scenario of claim C6. -/
def c6page : List RMsg :=
  [⟨"1", some "hello world"⟩, ⟨"2", some "HELLO there"⟩, ⟨"3", some "bye"⟩]

/-- Small resource of three messages with distinct non-empty ids, newest
first. -/
def c3wit : List RMsg := [⟨"m1", none⟩, ⟨"m2", none⟩, ⟨"m3", none⟩]

/-- Message with a name and no created_at field. -/
def c2missing : SMsg := { name := some "a" }

/-- Message with an unparsable created_at string. -/
def c2bad : SMsg := { name := some "b", created_at := some (CVal.cstr "garbage") }

/-! ## Theorems -/

theorem scanClientId_eq_none {items : List PItem}
    (h : ∀ it ∈ items, ¬ carriesSession it) : scanClientId items = none := by
  induction items with
  | nil => rfl
  | cons it rest ih =>
      cases it with
      | nonObj =>
          exact (by simpa [scanClientId] using ih fun x hx => h x (List.mem_cons_of_mem _ hx))
      | obj channel clientId =>
          have hhead := h _ (List.mem_cons_self _ _)
          have hcond : ¬(channel = some "/meta/handshake" ∧ clientId.getD "" ≠ "") := by
            rintro ⟨hch, hne⟩
            cases clientId with
            | none => exact hne rfl
            | some s => exact hhead ⟨hch, s, rfl, by simpa using hne⟩
          simp only [scanClientId, if_neg hcond]
          exact ih fun x hx => h x (List.mem_cons_of_mem _ hx)

/-- Claim C1 counterexample: for the batched handshake reply containing only
a connect entry (so no entry carries a session identifier for the handshake
meta-channel), watch_group does not fail: it extracts no client id, raises
nothing, and proceeds to send a subscribe frame with clientId None. -/
theorem C1_counterexample :
    noSessionEntry c1resp ∧
    handshake_client_id c1resp = none ∧
    watch_subscribe_frames c1resp ["/user/1"] =
      Except.ok [⟨"/meta/subscribe", none, "/user/1"⟩] ∧
    ∀ e, watch_subscribe_frames c1resp ["/user/1"] ≠ Except.error e := by
  refine ⟨by decide, rfl, rfl, ?_⟩
  intro e h
  exact Except.noConfusion h

/-- Claim C1 (amended): for every handshake reply with no entry carrying a
session identifier for the handshake meta-channel, the subscription protocol
handler raises no ProtocolError; it extracts no client id and proceeds to
subscribe every requested channel with clientId None. -/
theorem C1_amended (resp : HsResp) (channels : List String)
    (h : noSessionEntry resp) :
    handshake_client_id resp = none ∧
    watch_subscribe_frames resp channels =
      Except.ok (channels.map fun ch => ⟨"/meta/subscribe", none, ch⟩) ∧
    ∀ e, watch_subscribe_frames resp channels ≠ Except.error e := by
  have hid : handshake_client_id resp = none := by
    cases resp with
    | single channel clientId => exact h
    | batch items => exact scanClientId_eq_none h
  refine ⟨hid, ?_, ?_⟩
  · simp [watch_subscribe_frames, hid]
  · intro e he
    exact Except.noConfusion he

theorem C1_witness :
    handshake_client_id c1resp = none ∧
    watch_subscribe_frames c1resp ["/user/7"] =
      Except.ok [⟨"/meta/subscribe", none, "/user/7"⟩] :=
  ⟨(C1_amended c1resp ["/user/7"] (by decide)).1,
   (C1_amended c1resp ["/user/7"] (by decide)).2.1⟩

/-- Claim C7 counterexample: an envelope with no direct data field whose
ext.data field is present but falsy (an empty object) yields no event, while
the claim as stated says the demultiplexer falls back to the data field
nested inside ext whenever it is present. -/
theorem C7_counterexample :
    c7falsyEnv.data = none ∧
    c7falsyEnv.ext = some (ExtField.extObj (some (JVal.jobj []))) ∧
    extract_payload c7falsyEnv = none :=
  ⟨rfl, rfl, rfl⟩

/-- Claim C7 (amended): the demultiplexer yields the direct data field as the
payload when it is present; otherwise it falls back to the data field nested
inside ext only when that field is present and truthy; in every other case
(ext absent, ext not an object, ext.data absent, or ext.data falsy) it yields
no event.  In particular the envelope with channel "/x" and data
type-like yields that payload and the bare envelope with channel "/x" yields
none. -/
theorem C7_amended (env : Envelope) :
    (∀ p, env.data = some p → extract_payload env = some p) ∧
    (∀ d, env.data = none → env.ext = some (ExtField.extObj (some d)) →
      truthy d = true → extract_payload env = some d) ∧
    (∀ d, env.data = none → env.ext = some (ExtField.extObj (some d)) →
      truthy d = false → extract_payload env = none) ∧
    (env.data = none → env.ext = none → extract_payload env = none) ∧
    (env.data = none → env.ext = some ExtField.extOther → extract_payload env = none) ∧
    (env.data = none → env.ext = some (ExtField.extObj none) → extract_payload env = none) ∧
    extract_payload c7dataEnv = some (JVal.jobj [("type", JVal.jstr "like")]) ∧
    extract_payload c7bareEnv = none := by
  refine ⟨?_, ?_, ?_, ?_, ?_, ?_, rfl, rfl⟩
  · intro p hp
    simp [extract_payload, hp]
  · intro d hd hext ht
    simp [extract_payload, hd, hext, ht]
  · intro d hd hext ht
    simp [extract_payload, hd, hext, ht]
  · intro hd hext
    simp [extract_payload, hd, hext]
  · intro hd hext
    simp [extract_payload, hd, hext]
  · intro hd hext
    simp [extract_payload, hd, hext]

theorem C7_witness :
    extract_payload c7dataEnv = some (JVal.jobj [("type", JVal.jstr "like")]) ∧
    extract_payload c7extEnv = some (JVal.jstr "x") :=
  ⟨(C7_amended c7bareEnv).2.2.2.2.2.2.1,
   (C7_amended c7extEnv).2.1 (JVal.jstr "x") rfl rfl rfl⟩

/-- Claim C9: for every non-positive target limit, both bounded fetchers
return the empty list and issue zero page requests. -/
theorem dropAfterId_append (a : List RMsg) (m : RMsg) (b : List RMsg)
    (h : m.id ∉ a.map RMsg.id) : dropAfterId (a ++ m :: b) m.id = b := by
  induction a with
  | nil => simp [dropAfterId]
  | cons x xs ih =>
      have hx : ¬(x.id = m.id) := by
        intro he
        apply h
        rw [List.map_cons, he]
        exact List.mem_cons_self _ _
      rw [List.cons_append]
      rw [show dropAfterId (x :: (xs ++ m :: b)) m.id = dropAfterId (xs ++ m :: b) m.id from by
        simp [dropAfterId, hx]]
      exact ih fun hm => h (by rw [List.map_cons]; exact List.mem_cons_of_mem _ hm)

theorem fetchSlice_state {src done todo : List RMsg}
    (hnd : (src.map RMsg.id).Nodup) (hne : ∀ m ∈ src, m.id ≠ "")
    (hsrc : src = done ++ todo) (lim : Nat) :
    fetchSlice src (cursorParam (curOf done)) lim = todo.take lim := by
  rcases List.eq_nil_or_concat done with rfl | ⟨init, mlast, hdone⟩
  · rw [hsrc]
    simp [curOf, cursorParam, fetchSlice]
  · rw [List.concat_eq_append] at hdone
    subst hdone
    have hsrc' : src = init ++ mlast :: todo := by
      rw [hsrc, List.append_assoc]
      rfl
    have hmem : mlast ∈ src := by
      rw [hsrc']
      exact List.mem_append_right _ (List.mem_cons_self _ _)
    have hid : mlast.id ≠ "" := hne mlast hmem
    have hcur : curOf (init ++ [mlast]) = some mlast.id := by
      simp [curOf, List.getLast?_concat]
    have hnotin : mlast.id ∉ init.map RMsg.id := by
      have h2 := hnd
      rw [hsrc', List.map_append, List.map_cons] at h2
      have hdisj := (List.nodup_append.mp h2).2.2
      intro hmem'
      exact hdisj hmem' (List.mem_cons_self _ _)
    rw [hcur]
    have hcp : cursorParam (some mlast.id) = some mlast.id := by
      simp [cursorParam, hid]
    rw [hcp]
    show (dropAfterId src mlast.id).take lim = todo.take lim
    rw [hsrc', dropAfterId_append init mlast todo hnotin]

theorem curOf_append {done page : List RMsg} (h : page ≠ []) :
    curOf (done ++ page) = page.getLast?.map RMsg.id := by
  rw [curOf, List.getLast?_append]
  cases hG : page.getLast? with
  | none => exact absurd (List.getLast?_eq_none_iff.mp hG) h
  | some x => simp

theorem pageLoop_take {src : List RMsg} (hnd : (src.map RMsg.id).Nodup)
    (hne : ∀ m ∈ src, m.id ≠ "") {limit : Nat} (hlim : limit ≤ src.length) :
    ∀ (fuel : Nat) (done todo : List RMsg) (trace : List (Option String × Nat)),
      src = done ++ todo → done.length ≤ limit → limit - done.length ≤ fuel →
      (pageLoop (fetchSlice src) limit fuel done (curOf done) (limit - done.length) trace).1 =
        src.take limit := by
  intro fuel
  induction fuel with
  | zero =>
      intro done todo trace hsrc hdl hfuel
      have hdone : done.length = limit := by omega
      have h0 : pageLoop (fetchSlice src) limit 0 done (curOf done)
          (limit - done.length) trace = (done, trace) := by
        simp [pageLoop]
      rw [h0]
      show done = src.take limit
      rw [hsrc, ← hdone, List.take_left]
  | succ fuel ih =>
      intro done todo trace hsrc hdl hfuel
      by_cases hrem : limit - done.length = 0
      · have hdone : done.length = limit := by omega
        have h0 : pageLoop (fetchSlice src) limit (fuel + 1) done (curOf done)
            (limit - done.length) trace = (done, trace) := by
          simp [pageLoop, hrem]
        rw [h0]
        show done = src.take limit
        rw [hsrc, ← hdone, List.take_left]
      · have hlensrc : src.length = done.length + todo.length := by
          rw [hsrc, List.length_append]
        have hbtodo : min 100 (limit - done.length) ≤ todo.length := by omega
        have hfetch : fetchSlice src (cursorParam (curOf done)) (min 100 (limit - done.length)) =
            todo.take (min 100 (limit - done.length)) :=
          fetchSlice_state hnd hne hsrc _
        have hmlen : (todo.take (min 100 (limit - done.length))).length =
            min 100 (limit - done.length) := by
          rw [List.length_take]
          omega
        have hniE : ¬((todo.take (min 100 (limit - done.length))).isEmpty = true) := by
          rw [List.isEmpty_iff]
          intro he
          have hl := congrArg List.length he
          rw [hmlen, List.length_nil] at hl
          omega
        have hnshort : ¬((todo.take (min 100 (limit - done.length))).length <
            min 100 (limit - done.length)) := by
          rw [hmlen]
          omega
        have hpne : todo.take (min 100 (limit - done.length)) ≠ [] := by
          intro he
          exact hniE (by rw [List.isEmpty_iff]; exact he)
        have hbefore : (todo.take (min 100 (limit - done.length))).getLast?.map RMsg.id =
            curOf (done ++ todo.take (min 100 (limit - done.length))) :=
          (curOf_append hpne).symm
        have hstep : pageLoop (fetchSlice src) limit (fuel + 1) done (curOf done)
            (limit - done.length) trace =
            pageLoop (fetchSlice src) limit fuel
              (done ++ todo.take (min 100 (limit - done.length)))
              (curOf (done ++ todo.take (min 100 (limit - done.length))))
              (limit - (done ++ todo.take (min 100 (limit - done.length))).length)
              (trace ++ [(cursorParam (curOf done), min 100 (limit - done.length))]) := by
          rw [show pageLoop (fetchSlice src) limit (fuel + 1) done (curOf done)
              (limit - done.length) trace =
              if limit - done.length = 0 then (done, trace)
              else
                if (fetchSlice src (cursorParam (curOf done))
                    (min 100 (limit - done.length))).isEmpty then
                  (done, trace ++ [(cursorParam (curOf done), min 100 (limit - done.length))])
                else
                  if (fetchSlice src (cursorParam (curOf done))
                      (min 100 (limit - done.length))).length <
                      min 100 (limit - done.length) then
                    (done ++ fetchSlice src (cursorParam (curOf done))
                      (min 100 (limit - done.length)),
                     trace ++ [(cursorParam (curOf done), min 100 (limit - done.length))])
                  else
                    pageLoop (fetchSlice src) limit fuel
                      (done ++ fetchSlice src (cursorParam (curOf done))
                        (min 100 (limit - done.length)))
                      ((fetchSlice src (cursorParam (curOf done))
                        (min 100 (limit - done.length))).getLast?.map RMsg.id)
                      (limit - (done ++ fetchSlice src (cursorParam (curOf done))
                        (min 100 (limit - done.length))).length)
                      (trace ++ [(cursorParam (curOf done),
                        min 100 (limit - done.length))]) from rfl]
          rw [if_neg hrem, hfetch, if_neg hniE, if_neg hnshort, hbefore]
        rw [hstep]
        refine ih (done ++ todo.take (min 100 (limit - done.length)))
          (todo.drop (min 100 (limit - done.length)))
          (trace ++ [(cursorParam (curOf done), min 100 (limit - done.length))]) ?_ ?_ ?_
        · rw [List.append_assoc, List.take_append_drop]
          exact hsrc
        · rw [List.length_append, hmlen]
          omega
        · rw [List.length_append, hmlen]
          omega

theorem pageLoop_exhaust {src : List RMsg} (hnd : (src.map RMsg.id).Nodup)
    (hne : ∀ m ∈ src, m.id ≠ "") {limit : Nat} (hlim : src.length < limit) :
    ∀ (fuel : Nat) (done todo : List RMsg) (trace : List (Option String × Nat)),
      src = done ++ todo → limit - done.length ≤ fuel →
      ∃ pre last,
        pageLoop (fetchSlice src) limit fuel done (curOf done) (limit - done.length) trace =
          (src, trace ++ pre ++ [last]) ∧
        (∀ e ∈ pre, pageFull src e) ∧ pageShortOrEmpty src last := by
  intro fuel
  induction fuel with
  | zero =>
      intro done todo trace hsrc hfuel
      exfalso
      have : src.length = done.length + todo.length := by rw [hsrc, List.length_append]
      omega
  | succ fuel ih =>
      intro done todo trace hsrc hfuel
      have hlensrc : src.length = done.length + todo.length := by
        rw [hsrc, List.length_append]
      have hrem : ¬(limit - done.length = 0) := by omega
      have hfetch : fetchSlice src (cursorParam (curOf done)) (min 100 (limit - done.length)) =
          todo.take (min 100 (limit - done.length)) :=
        fetchSlice_state hnd hne hsrc _
      have hunfold : pageLoop (fetchSlice src) limit (fuel + 1) done (curOf done)
          (limit - done.length) trace =
          if (todo.take (min 100 (limit - done.length))).isEmpty then
            (done, trace ++ [(cursorParam (curOf done), min 100 (limit - done.length))])
          else
            if (todo.take (min 100 (limit - done.length))).length <
                min 100 (limit - done.length) then
              (done ++ todo.take (min 100 (limit - done.length)),
               trace ++ [(cursorParam (curOf done), min 100 (limit - done.length))])
            else
              pageLoop (fetchSlice src) limit fuel
                (done ++ todo.take (min 100 (limit - done.length)))
                ((todo.take (min 100 (limit - done.length))).getLast?.map RMsg.id)
                (limit - (done ++ todo.take (min 100 (limit - done.length))).length)
                (trace ++ [(cursorParam (curOf done), min 100 (limit - done.length))]) := by
        rw [show pageLoop (fetchSlice src) limit (fuel + 1) done (curOf done)
            (limit - done.length) trace =
            if limit - done.length = 0 then (done, trace)
            else
              if (fetchSlice src (cursorParam (curOf done))
                  (min 100 (limit - done.length))).isEmpty then
                (done, trace ++ [(cursorParam (curOf done), min 100 (limit - done.length))])
              else
                if (fetchSlice src (cursorParam (curOf done))
                    (min 100 (limit - done.length))).length <
                    min 100 (limit - done.length) then
                  (done ++ fetchSlice src (cursorParam (curOf done))
                    (min 100 (limit - done.length)),
                   trace ++ [(cursorParam (curOf done), min 100 (limit - done.length))])
                else
                  pageLoop (fetchSlice src) limit fuel
                    (done ++ fetchSlice src (cursorParam (curOf done))
                      (min 100 (limit - done.length)))
                    ((fetchSlice src (cursorParam (curOf done))
                      (min 100 (limit - done.length))).getLast?.map RMsg.id)
                    (limit - (done ++ fetchSlice src (cursorParam (curOf done))
                      (min 100 (limit - done.length))).length)
                    (trace ++ [(cursorParam (curOf done),
                      min 100 (limit - done.length))]) from rfl]
        rw [if_neg hrem, hfetch]
      by_cases htodo : todo = []
      · refine ⟨[], (cursorParam (curOf done), min 100 (limit - done.length)), ?_, by simp, ?_⟩
        · rw [hunfold]
          rw [if_pos (by rw [htodo, List.take_nil]; rfl)]
          rw [hsrc, htodo, List.append_nil]
          simp
        · exact Or.inl (by
            show fetchSlice src (cursorParam (curOf done)) (min 100 (limit - done.length)) = []
            rw [hfetch, htodo, List.take_nil])
      · by_cases hshort2 : todo.length < min 100 (limit - done.length)
        · have htake : todo.take (min 100 (limit - done.length)) = todo :=
            List.take_of_length_le (by omega)
          refine ⟨[], (cursorParam (curOf done), min 100 (limit - done.length)), ?_, by simp, ?_⟩
          · rw [hunfold]
            rw [if_neg (by rw [htake, List.isEmpty_iff]; exact htodo)]
            rw [if_pos (by rw [htake]; omega)]
            rw [htake, ← hsrc]
            simp
          · exact Or.inr (by
              show (fetchSlice src (cursorParam (curOf done))
                (min 100 (limit - done.length))).length < min 100 (limit - done.length)
              rw [hfetch, htake]
              omega)
        · have hmlen : (todo.take (min 100 (limit - done.length))).length =
              min 100 (limit - done.length) := by
            rw [List.length_take]
            omega
          have hpne : todo.take (min 100 (limit - done.length)) ≠ [] := by
            intro he
            have hl := congrArg List.length he
            rw [hmlen, List.length_nil] at hl
            omega
          obtain ⟨pre, last, hpl, hfull, hend⟩ := ih
            (done ++ todo.take (min 100 (limit - done.length)))
            (todo.drop (min 100 (limit - done.length)))
            (trace ++ [(cursorParam (curOf done), min 100 (limit - done.length))])
            (by rw [List.append_assoc, List.take_append_drop]; exact hsrc)
            (by rw [List.length_append, hmlen]; omega)
          refine ⟨(cursorParam (curOf done), min 100 (limit - done.length)) :: pre, last,
            ?_, ?_, hend⟩
          · rw [hunfold]
            rw [if_neg (by rw [List.isEmpty_iff]; exact hpne)]
            rw [if_neg (by rw [hmlen]; omega)]
            rw [curOf_append hpne] at hpl
            rw [hpl]
            simp
          · intro e he
            rcases List.mem_cons.mp he with rfl | he'
            · show (fetchSlice src (cursorParam (curOf done))
                  (min 100 (limit - done.length))).length = min 100 (limit - done.length)
              rw [hfetch]
              exact hmlen
            · exact hfull e he'

theorem charsHave_nil_left (hay : List Char) : charsHave [] hay = true := by
  cases hay <;> simp [charsHave, charsLead]

theorem searchLoop_spec (fetch : Option String → List RMsg) (mp : Nat) (q : Option String) :
    ∀ (fuel : Nat) (results : List RMsg) (before_id : Option String) (pages : Nat)
      (trace : List (Option String × List RMsg)),
    ∃ newtr,
      searchLoop fetch mp q fuel results before_id pages trace =
        (results ++ ((newtr.map Prod.snd).flatten).filter (textMatches q), trace ++ newtr) ∧
      newtr.length ≤ mp - pages := by
  intro fuel
  induction fuel with
  | zero =>
      intro results before_id pages trace
      exact ⟨[], by simp [searchLoop], by simp⟩
  | succ fuel ih =>
      intro results before_id pages trace
      by_cases hmp : mp ≤ pages
      · exact ⟨[], by simp [searchLoop, hmp], by simp⟩
      · by_cases hemp : fetch (cursorParam before_id) = []
        · refine ⟨[(cursorParam before_id, fetch (cursorParam before_id))], ?_, by simp; omega⟩
          simp [searchLoop, hmp, hemp, List.isEmpty_iff]
        · by_cases hshort : (fetch (cursorParam before_id)).length < 100
          · refine ⟨[(cursorParam before_id, fetch (cursorParam before_id))], ?_, by simp; omega⟩
            simp [searchLoop, hmp, hemp, hshort, List.isEmpty_iff]
          · obtain ⟨newtr, heq, hlen⟩ := ih
              (results ++ (fetch (cursorParam before_id)).filter (textMatches q))
              ((fetch (cursorParam before_id)).getLast?.map RMsg.id) (pages + 1)
              (trace ++ [(cursorParam before_id, fetch (cursorParam before_id))])
            refine ⟨(cursorParam before_id, fetch (cursorParam before_id)) :: newtr, ?_, by simp; omega⟩
            have hstep : searchLoop fetch mp q (fuel + 1) results before_id pages trace =
                searchLoop fetch mp q fuel
                  (results ++ (fetch (cursorParam before_id)).filter (textMatches q))
                  ((fetch (cursorParam before_id)).getLast?.map RMsg.id) (pages + 1)
                  (trace ++ [(cursorParam before_id, fetch (cursorParam before_id))]) := by
              simp [searchLoop, hmp, hemp, hshort, List.isEmpty_iff]
            rw [hstep, heq]
            simp [List.filter_append, List.append_assoc]

/-- Claim C6: client-side search returns exactly the scanned items whose text
field contains the query as a case-insensitive substring, scanning at most
max_pages pages; in particular, for a page with texts "hello world",
"HELLO there" and "bye" and query "hello", exactly the first two items are
returned. -/
theorem C6_search_filter (fetch : Option String → List RMsg) (query : Option String)
    (max_pages : Nat) :
    (search_direct_messages fetch query max_pages).1 =
      (((search_direct_messages fetch query max_pages).2.map Prod.snd).flatten).filter
        (textMatches query) ∧
    (search_direct_messages fetch query max_pages).2.length ≤ max_pages ∧
    (search_direct_messages (fun _ => c6page) (some "hello") 10).1 =
      [⟨"1", some "hello world"⟩, ⟨"2", some "HELLO there"⟩] := by
  obtain ⟨newtr, heq, hlen⟩ := searchLoop_spec fetch max_pages query (max_pages + 1) [] none 0 []
  have h2 : (search_direct_messages fetch query max_pages).2 = newtr := by
    rw [search_direct_messages, heq]
    simp
  have h1 : (search_direct_messages fetch query max_pages).1 =
      ((newtr.map Prod.snd).flatten).filter (textMatches query) := by
    rw [search_direct_messages, heq]
    simp
  refine ⟨?_, ?_, by decide⟩
  · rw [h1, h2]
  · rw [h2]
    omega

theorem C6_witness :
    (search_direct_messages (fun _ => c6page) (some "hello") 10).1 =
      [⟨"1", some "hello world"⟩, ⟨"2", some "HELLO there"⟩] :=
  (C6_search_filter (fun _ => c6page) (some "hello") 10).2.2

/-- Claim C10: for a None or empty-string query, every scanned message
matches (a missing text is treated as the empty string), so the search
returns all messages encountered up to the page cap. -/
theorem C10_empty_query (fetch : Option String → List RMsg) (query : Option String)
    (max_pages : Nat) (h : query = none ∨ query = some "") :
    (search_direct_messages fetch query max_pages).1 =
      ((search_direct_messages fetch query max_pages).2.map Prod.snd).flatten := by
  have hq : ((query.getD "").toList.map lowerChar) = [] := by
    rcases h with rfl | rfl <;> rfl
  have hmatch : ∀ m : RMsg, textMatches query m = true := by
    intro m
    unfold textMatches
    rw [hq]
    exact charsHave_nil_left _
  obtain ⟨newtr, heq, hlen⟩ := searchLoop_spec fetch max_pages query (max_pages + 1) [] none 0 []
  have h2 : (search_direct_messages fetch query max_pages).2 = newtr := by
    rw [search_direct_messages, heq]
    simp
  have h1 : (search_direct_messages fetch query max_pages).1 =
      ((newtr.map Prod.snd).flatten).filter (textMatches query) := by
    rw [search_direct_messages, heq]
    simp
  rw [h1, h2, List.filter_eq_self.mpr fun a _ => hmatch a]

theorem C10_witness :
    (search_direct_messages (fun _ => c6page) none 10).1 =
      ((search_direct_messages (fun _ => c6page) none 10).2.map Prod.snd).flatten ∧
    (search_direct_messages (fun _ => c6page) none 10).1 = c6page :=
  ⟨C10_empty_query (fun _ => c6page) none 10 (Or.inl rfl), by decide⟩

theorem exportLoop_chain (fetch : Option String → List RMsg) :
    ∀ (fuel : Nat) (before_id : Option String) (acc : List RMsg)
      (trace : List (Option String × List RMsg)),
    trace.Chain' (fun a b => b.1 = a.2.getLast?.map RMsg.id) →
    (∀ e, trace.getLast? = some e → before_id = e.2.getLast?.map RMsg.id) →
    ((exportLoop fetch fuel before_id acc trace).2).Chain'
      (fun a b => b.1 = a.2.getLast?.map RMsg.id) := by
  intro fuel
  induction fuel with
  | zero =>
      intro before_id acc trace hc _
      simpa [exportLoop] using hc
  | succ fuel ih =>
      intro before_id acc trace hc hlast
      have hc' : (trace ++ [(before_id, fetch before_id)]).Chain'
          (fun a b => b.1 = a.2.getLast?.map RMsg.id) := by
        refine List.chain'_append.mpr ⟨hc, List.chain'_singleton _, ?_⟩
        intro x hx y hy
        rw [List.head?_cons, Option.mem_def, Option.some_inj] at hy
        subst hy
        simpa using hlast x hx
      by_cases hemp : fetch before_id = []
      · simpa [exportLoop, hemp, List.isEmpty_iff] using hc'
      · by_cases hshort : (fetch before_id).length < 100
        · simpa [exportLoop, hemp, hshort, List.isEmpty_iff] using hc'
        · have hstep : exportLoop fetch (fuel + 1) before_id acc trace =
              exportLoop fetch fuel ((fetch before_id).getLast?.map RMsg.id)
                (acc ++ fetch before_id) (trace ++ [(before_id, fetch before_id)]) := by
            simp [exportLoop, hemp, hshort, List.isEmpty_iff]
          rw [hstep]
          refine ih _ _ _ hc' ?_
          intro e he
          rw [List.getLast?_concat, Option.some_inj] at he
          subst he
          rfl

/-- Claim C5: in general the cursor passed to each fetch after the first
equals the identifier of the last (oldest) item of the page just fetched;
and over the deterministic three-page source of sizes 100, 100 and 37 the
unbounded export yields exactly 237 items, invokes the fetch exactly 3
times, and passes cursors None, then the id of item 100, then the id of
item 200. -/
theorem C5_export_pages :
    (∀ (fetch : Option String → List RMsg) (fuel : Nat),
      ((export_group_messages fetch fuel).2).Chain'
        (fun a b => b.1 = a.2.getLast?.map RMsg.id)) ∧
    (export_group_messages c5fetch 5).1.length = 237 ∧
    (export_group_messages c5fetch 5).2.map Prod.fst = [none, some "100", some "200"] ∧
    (export_group_messages c5fetch 5).2.length = 3 := by
  refine ⟨?_, by decide, by decide, by decide⟩
  intro fetch fuel
  refine exportLoop_chain fetch fuel none [] [] List.chain'_nil ?_
  intro e he
  simp at he

theorem C5_witness :
    ((export_group_messages c5fetch 5).2).Chain'
      (fun a b => b.1 = a.2.getLast?.map RMsg.id) :=
  C5_export_pages.1 c5fetch 5

/-- Claim C3 counterexample: over a resource of 101 items with pairwise
distinct identifiers, one of which is the empty string at position 100,
a bounded fetch with target 101 returns items with duplicate identifiers:
after the first full page the cursor is the empty string, which the code
drops as falsy (if before_id:), so the second request restarts from the
newest item. -/
theorem C3_counterexample :
    (c3src.map RMsg.id).Nodup ∧ 0 < (101 : Nat) ∧ 101 ≤ c3src.length ∧
    ¬(((get_group_messages_latest (fetchSlice c3src) 101).1.map RMsg.id).Nodup) := by
  refine ⟨by decide, by decide, by decide, by decide⟩

/-- Claim C3 (amended): for every bounded fetch with target N over a page
source holding M at least N items with distinct non-empty identifiers in
newest-first order, exactly N items are returned, they are the N newest in
newest-first order, and their identifiers have no duplicates; this holds for
both get_group_messages_latest and get_direct_messages. -/
theorem C3_bounded_fetch (src : List RMsg) (n : Nat) (hpos : 0 < n)
    (hnd : (src.map RMsg.id).Nodup) (hne : ∀ m ∈ src, m.id ≠ "")
    (hlen : n ≤ src.length) :
    (get_group_messages_latest (fetchSlice src) (n : Int)).1 = src.take n ∧
    (get_group_messages_latest (fetchSlice src) (n : Int)).1.length = n ∧
    ((get_group_messages_latest (fetchSlice src) (n : Int)).1.map RMsg.id).Nodup ∧
    (get_direct_messages (fetchSlice src) (n : Int)).1 = src.take n ∧
    (get_direct_messages (fetchSlice src) (n : Int)).1.length = n ∧
    ((get_direct_messages (fetchSlice src) (n : Int)).1.map RMsg.id).Nodup := by
  have hneg : ¬((n : Int) ≤ 0) := by
    rw [not_le]
    exact_mod_cast hpos
  have hloop := pageLoop_take hnd hne hlen n [] src [] rfl (by simp) (by simp)
  have hkey : (pageLoop (fetchSlice src) n n [] none n []).1 = src.take n := by
    simpa [curOf] using hloop
  have hres : (get_group_messages_latest (fetchSlice src) (n : Int)).1 = src.take n := by
    rw [get_group_messages_latest, if_neg hneg]
    show ((pageLoop (fetchSlice src) (n : Int).toNat (n : Int).toNat [] none
      (n : Int).toNat []).1.take (n : Int).toNat, _).1 = src.take n
    rw [Int.toNat_natCast, hkey, List.take_take, Nat.min_self]
  have hres2 : (get_direct_messages (fetchSlice src) (n : Int)).1 = src.take n := by
    rw [get_direct_messages, if_neg hneg]
    show ((pageLoop (fetchSlice src) (n : Int).toNat (n : Int).toNat [] none
      (n : Int).toNat []).1.take (n : Int).toNat, _).1 = src.take n
    rw [Int.toNat_natCast, hkey, List.take_take, Nat.min_self]
  have hlen' : (src.take n).length = n := by
    rw [List.length_take]
    omega
  have hnd' : ((src.take n).map RMsg.id).Nodup := by
    rw [List.map_take]
    exact List.Nodup.sublist (List.take_sublist _ _) hnd
  exact ⟨hres, by rw [hres, hlen'], by rw [hres]; exact hnd',
    hres2, by rw [hres2, hlen'], by rw [hres2]; exact hnd'⟩

theorem C3_witness :
    (get_group_messages_latest (fetchSlice c3wit) ((2 : Nat) : Int)).1 = c3wit.take 2 ∧
    (get_direct_messages (fetchSlice c3wit) ((2 : Nat) : Int)).1.length = 2 :=
  ⟨(C3_bounded_fetch c3wit 2 (by decide) (by decide) (by decide) (by decide)).1,
   (C3_bounded_fetch c3wit 2 (by decide) (by decide) (by decide) (by decide)).2.2.2.2.1⟩

/-- Claim C4 counterexample: over a resource of 100 items with non-empty
identifiers where the last item of the first full page repeats the id of the
newest item, a bounded fetch with target 150 returns 150 items instead of
the resource's 100: the repeated-id cursor makes the second request resume
right after the newest item, re-reading items already collected, and the
loop ends by count satisfaction with no empty or short page. -/
theorem C4_counterexample :
    c4src.length = 100 ∧ (100 : Nat) < 150 ∧
    (get_group_messages_latest (fetchSlice c4src) 150).1.length = 150 ∧
    (get_group_messages_latest (fetchSlice c4src) 150).1.length ≠ c4src.length := by
  refine ⟨by decide, by decide, by decide, by decide⟩

/-- Claim C4 (amended): for every bounded fetch with target N over a page
source holding M fewer than N items with distinct non-empty identifiers,
exactly the M items of the resource are returned, and the run consists of
zero or more full pages followed by one final page that is empty or shorter
than its requested batch limit (the loop stops the first time such a page
arrives); this holds for both bounded fetchers. -/
theorem C4_exhausting_fetch (src : List RMsg) (n : Nat)
    (hnd : (src.map RMsg.id).Nodup) (hne : ∀ m ∈ src, m.id ≠ "")
    (hlen : src.length < n) :
    (get_group_messages_latest (fetchSlice src) (n : Int)).1 = src ∧
    (get_direct_messages (fetchSlice src) (n : Int)).1 = src ∧
    ∃ pre last,
      (get_group_messages_latest (fetchSlice src) (n : Int)).2 = pre ++ [last] ∧
      (∀ e ∈ pre, pageFull src e) ∧ pageShortOrEmpty src last := by
  have hpos : 0 < n := by omega
  have hneg : ¬((n : Int) ≤ 0) := by
    rw [not_le]
    exact_mod_cast hpos
  obtain ⟨pre, last, hpl, hfull, hend⟩ :=
    pageLoop_exhaust hnd hne hlen n [] src [] rfl (by simp)
  have hkey : pageLoop (fetchSlice src) n n [] none n [] = (src, pre ++ [last]) := by
    have := hpl
    simp only [curOf, List.getLast?_nil, Option.map_none', List.length_nil,
      Nat.sub_zero, List.nil_append] at this
    exact this
  have htk : src.take n = src := List.take_of_length_le (by omega)
  have hres : (get_group_messages_latest (fetchSlice src) (n : Int)).1 = src := by
    rw [get_group_messages_latest, if_neg hneg]
    show ((pageLoop (fetchSlice src) (n : Int).toNat (n : Int).toNat [] none
      (n : Int).toNat []).1.take (n : Int).toNat, _).1 = src
    rw [Int.toNat_natCast, hkey]
    exact htk
  have hres2 : (get_direct_messages (fetchSlice src) (n : Int)).1 = src := by
    rw [get_direct_messages, if_neg hneg]
    show ((pageLoop (fetchSlice src) (n : Int).toNat (n : Int).toNat [] none
      (n : Int).toNat []).1.take (n : Int).toNat, _).1 = src
    rw [Int.toNat_natCast, hkey]
    exact htk
  refine ⟨hres, hres2, pre, last, ?_, hfull, hend⟩
  rw [get_group_messages_latest, if_neg hneg]
  show ((pageLoop (fetchSlice src) (n : Int).toNat (n : Int).toNat [] none
    (n : Int).toNat []).1.take (n : Int).toNat,
    (pageLoop (fetchSlice src) (n : Int).toNat (n : Int).toNat [] none
    (n : Int).toNat []).2).2 = pre ++ [last]
  rw [Int.toNat_natCast, hkey]

theorem C4_witness :
    (get_group_messages_latest (fetchSlice c3wit) ((7 : Nat) : Int)).1 = c3wit ∧
    (get_direct_messages (fetchSlice c3wit) ((7 : Nat) : Int)).1 = c3wit :=
  ⟨(C4_exhausting_fetch c3wit 7 (by decide) (by decide) (by decide)).1,
   (C4_exhausting_fetch c3wit 7 (by decide) (by decide) (by decide)).2.1⟩

theorem C9_nonpositive_limit (fetch : Option String → Nat → List RMsg)
    (limit : Int) (h : limit ≤ 0) :
    get_group_messages_latest fetch limit = ([], []) ∧
    get_direct_messages fetch limit = ([], []) := by
  constructor
  · simp [get_group_messages_latest, if_pos h]
  · simp [get_direct_messages, if_pos h]

theorem insertDesc_perm {α : Type} (key : α → Nat) (a : α) (l : List α) :
    List.Perm (insertDesc key a l) (a :: l) := by
  induction l with
  | nil => exact List.Perm.refl _
  | cons b bs ih =>
      by_cases h : key b ≤ key a
      · simp [insertDesc, if_pos h]
      · simp only [insertDesc, if_neg h]
        exact (ih.cons b).trans (List.Perm.swap a b bs)

theorem sortDesc_perm {α : Type} (key : α → Nat) (l : List α) :
    List.Perm (sortDesc key l) l := by
  induction l with
  | nil => exact List.Perm.refl _
  | cons x xs ih => exact (insertDesc_perm key x (sortDesc key xs)).trans (ih.cons x)

theorem insertDesc_pairwise {α : Type} (key : α → Nat) (a : α) {l : List α}
    (h : l.Pairwise (fun x y => key y ≤ key x)) :
    (insertDesc key a l).Pairwise (fun x y => key y ≤ key x) := by
  induction l with
  | nil => simp [insertDesc]
  | cons b bs ih =>
      rcases List.pairwise_cons.mp h with ⟨hb, hbs⟩
      by_cases hba : key b ≤ key a
      · simp only [insertDesc, if_pos hba]
        refine List.pairwise_cons.mpr ⟨?_, h⟩
        intro y hy
        rcases List.mem_cons.mp hy with rfl | hy'
        · exact hba
        · exact le_trans (hb y hy') hba
      · simp only [insertDesc, if_neg hba]
        refine List.pairwise_cons.mpr ⟨?_, ih hbs⟩
        intro y hy
        have : y ∈ a :: bs := (insertDesc_perm key a bs).mem_iff.mp hy
        rcases List.mem_cons.mp this with rfl | hy'
        · exact le_of_lt (lt_of_not_le hba)
        · exact hb y hy'

theorem sortDesc_pairwise {α : Type} (key : α → Nat) (l : List α) :
    (sortDesc key l).Pairwise (fun x y => key y ≤ key x) := by
  induction l with
  | nil => simp [sortDesc]
  | cons x xs ih => exact insertDesc_pairwise key x ih

theorem insertDesc_filter {α : Type} (key : α → Nat) (a : α) (l : List α) (c : Nat) :
    (insertDesc key a l).filter (fun x => key x == c) =
      if key a = c then a :: l.filter (fun x => key x == c)
      else l.filter (fun x => key x == c) := by
  induction l with
  | nil =>
      by_cases h : key a = c
      · simp only [insertDesc, List.filter_cons, List.filter_nil, if_pos h]
        simp [h]
      · simp only [insertDesc, List.filter_cons, List.filter_nil, if_neg h]
        simp [h]
  | cons b bs ih =>
      by_cases hba : key b ≤ key a
      · simp only [insertDesc, if_pos hba]
        by_cases hac : key a = c
        · rw [if_pos hac]
          simp [List.filter_cons, hac]
        · rw [if_neg hac]
          simp [List.filter_cons, hac]
      · simp only [insertDesc, if_neg hba]
        rw [List.filter_cons, List.filter_cons, ih]
        by_cases hac : key a = c
        · have hb : ¬(key b = c) := fun hbc => hba (le_of_eq (hbc.trans hac.symm))
          rw [if_pos hac, if_pos hac]
          simp [hb]
        · rw [if_neg hac, if_neg hac]

theorem sortDesc_filter {α : Type} (key : α → Nat) (l : List α) (c : Nat) :
    (sortDesc key l).filter (fun x => key x == c) = l.filter (fun x => key x == c) := by
  induction l with
  | nil => rfl
  | cons x xs ih =>
      rw [sortDesc, insertDesc_filter, List.filter_cons]
      by_cases h : key x = c
      · rw [if_pos h, ih]
        simp [h]
      · rw [if_neg h, ih]
        simp [h]

theorem insertAsc_perm {α : Type} (key : α → Int) (a : α) (l : List α) :
    List.Perm (insertAsc key a l) (a :: l) := by
  induction l with
  | nil => exact List.Perm.refl _
  | cons b bs ih =>
      by_cases h : key a ≤ key b
      · simp [insertAsc, if_pos h]
      · simp only [insertAsc, if_neg h]
        exact (ih.cons b).trans (List.Perm.swap a b bs)

theorem sortAsc_perm {α : Type} (key : α → Int) (l : List α) :
    List.Perm (sortAsc key l) l := by
  induction l with
  | nil => exact List.Perm.refl _
  | cons x xs ih => exact (insertAsc_perm key x (sortAsc key xs)).trans (ih.cons x)

theorem insertAsc_pairwise {α : Type} (key : α → Int) (a : α) {l : List α}
    (h : l.Pairwise (fun x y => key x ≤ key y)) :
    (insertAsc key a l).Pairwise (fun x y => key x ≤ key y) := by
  induction l with
  | nil => simp [insertAsc]
  | cons b bs ih =>
      rcases List.pairwise_cons.mp h with ⟨hb, hbs⟩
      by_cases hab : key a ≤ key b
      · simp only [insertAsc, if_pos hab]
        refine List.pairwise_cons.mpr ⟨?_, h⟩
        intro y hy
        rcases List.mem_cons.mp hy with rfl | hy'
        · exact hab
        · exact le_trans hab (hb y hy')
      · simp only [insertAsc, if_neg hab]
        refine List.pairwise_cons.mpr ⟨?_, ih hbs⟩
        intro y hy
        have : y ∈ a :: bs := (insertAsc_perm key a bs).mem_iff.mp hy
        rcases List.mem_cons.mp this with rfl | hy'
        · exact le_of_lt (lt_of_not_le hab)
        · exact hb y hy'

theorem sortAsc_pairwise {α : Type} (key : α → Int) (l : List α) :
    (sortAsc key l).Pairwise (fun x y => key x ≤ key y) := by
  induction l with
  | nil => simp [sortAsc]
  | cons x xs ih => exact insertAsc_pairwise key x ih

theorem lookupCount_nil {α : Type} [DecidableEq α] (k : α) :
    lookupCount ([] : List (α × Nat)) k = 0 := rfl

theorem lookupCount_cons {α : Type} [DecidableEq α] (p : α × Nat) (l : List (α × Nat)) (k : α) :
    lookupCount (p :: l) k = (if p.1 = k then p.2 else 0) + lookupCount l k := by
  simp [lookupCount]

theorem lookupCount_perm {α : Type} [DecidableEq α] {l l' : List (α × Nat)}
    (h : List.Perm l l') (k : α) : lookupCount l k = lookupCount l' k := by
  have := (h.map fun p => if p.1 = k then p.2 else 0).sum_eq
  simpa [lookupCount] using this

theorem lookupCount_bump {α : Type} [DecidableEq α] (l : List (α × Nat)) (k k' : α) :
    lookupCount (bump l k) k' = lookupCount l k' + (if k = k' then 1 else 0) := by
  induction l with
  | nil =>
      simp only [bump, lookupCount_cons, lookupCount_nil]
      by_cases h : k = k'
      · simp [h]
      · simp [h]
  | cons p rest ih =>
      obtain ⟨k0, c⟩ := p
      by_cases h0 : k0 = k
      · subst h0
        have hb : bump ((k0, c) :: rest) k0 = (k0, c + 1) :: rest := by
          simp [bump]
        rw [hb, lookupCount_cons, lookupCount_cons]
        by_cases h1 : k0 = k'
        · simp only [if_pos h1]
          omega
        · simp only [if_neg h1]
          omega
      · have hb : bump ((k0, c) :: rest) k = (k0, c) :: bump rest k := by
          simp [bump, h0]
        rw [hb, lookupCount_cons, lookupCount_cons, ih]
        omega

theorem lookupCount_eq_zero {α : Type} [DecidableEq α] {l : List (α × Nat)} {k : α}
    (h : k ∉ l.map Prod.fst) : lookupCount l k = 0 := by
  induction l with
  | nil => rfl
  | cons p rest ih =>
      rw [List.map_cons, List.mem_cons] at h
      push_neg at h
      rw [lookupCount_cons, if_neg (fun he => h.1 he.symm), ih h.2]

theorem bump_keys {α : Type} [DecidableEq α] (l : List (α × Nat)) (k : α) :
    (bump l k).map Prod.fst =
      if k ∈ l.map Prod.fst then l.map Prod.fst else l.map Prod.fst ++ [k] := by
  induction l with
  | nil => simp [bump]
  | cons p rest ih =>
      obtain ⟨k0, c⟩ := p
      by_cases h0 : k0 = k
      · subst h0
        simp [bump]
      · simp only [bump, if_neg h0, List.map_cons, ih]
        have hmem : k ∈ k0 :: rest.map Prod.fst ↔ k ∈ rest.map Prod.fst := by
          rw [List.mem_cons]
          exact ⟨fun h => h.resolve_left fun he => h0 he.symm, Or.inr⟩
        by_cases h1 : k ∈ rest.map Prod.fst
        · simp [h1, hmem]
        · simp [h1, hmem]

theorem bump_keys_nodup {α : Type} [DecidableEq α] {l : List (α × Nat)} (k : α)
    (h : (l.map Prod.fst).Nodup) : ((bump l k).map Prod.fst).Nodup := by
  rw [bump_keys]
  by_cases hm : k ∈ l.map Prod.fst
  · simpa [hm] using h
  · rw [if_neg hm]
    refine List.nodup_append.mpr ⟨h, List.nodup_singleton k, ?_⟩
    intro a ha hak
    rw [List.mem_singleton] at hak
    exact hm (hak ▸ ha)

theorem mem_eq_lookupCount {α : Type} [DecidableEq α] {l : List (α × Nat)}
    (h : (l.map Prod.fst).Nodup) {p : α × Nat} (hp : p ∈ l) :
    p.2 = lookupCount l p.1 := by
  induction l with
  | nil => cases hp
  | cons q rest ih =>
      rw [List.map_cons, List.nodup_cons] at h
      obtain ⟨hni, hnd⟩ := h
      rcases List.mem_cons.mp hp with rfl | hp'
      · rw [lookupCount_cons, if_pos rfl, lookupCount_eq_zero hni]
        omega
      · have hne : ¬(q.1 = p.1) := by
          intro he
          exact hni (he ▸ List.mem_map_of_mem Prod.fst hp')
        rw [lookupCount_cons, if_neg hne, ih hnd hp']
        omega

theorem pairwise_take_drop {α : Type} {R : α → α → Prop} {l : List α}
    (h : l.Pairwise R) (n : Nat) :
    ∀ q ∈ l.take n, ∀ p ∈ l.drop n, R q p := by
  have h2 : (l.take n ++ l.drop n).Pairwise R := by
    rw [List.take_append_drop]
    exact h
  intro q hq p hp
  exact (List.pairwise_append.mp h2).2.2 q hq p hp

theorem stats_foldl_likes (msgs : List SMsg) (acc : StatsAcc) :
    (msgs.foldl statsStep acc).likes_by_message =
      acc.likes_by_message ++ msgs.map fun m => (m.favorited_by.length, m) := by
  induction msgs generalizing acc with
  | nil => simp
  | cons m ms ih =>
      simp only [List.foldl_cons, List.map_cons]
      rw [ih]
      simp [statsStep]

theorem stats_foldl_user (msgs : List SMsg) (acc : StatsAcc) (k : Option String) :
    lookupCount (msgs.foldl statsStep acc).count_by_user k =
      lookupCount acc.count_by_user k + msgs.countP (fun m => userKey m == k) := by
  induction msgs generalizing acc with
  | nil => simp
  | cons m ms ih =>
      simp only [List.foldl_cons, List.countP_cons]
      rw [ih]
      have hb : lookupCount (statsStep acc m).count_by_user k =
          lookupCount acc.count_by_user k + (if userKey m = k then 1 else 0) := by
        simpa [statsStep] using lookupCount_bump acc.count_by_user (userKey m) k
      rw [hb]
      by_cases h : userKey m = k
      · simp [h]
        omega
      · simp [h]

theorem hourOf_zero : hourOf 0 = 0 := by decide

theorem histBucket_eq (m : SMsg) : histBucket m = (tsOf m).map hourOf := by
  unfold histBucket tsOf
  cases hca : m.created_at with
  | none => simp [hourOf_zero]
  | some v =>
      by_cases ht : cvalTruthy v = true
      · simp only [ht, if_pos]
        cases cvalToInt v <;> rfl
      · simp [ht, hourOf_zero]

theorem stats_foldl_hist (msgs : List SMsg) (acc : StatsAcc) (h : Int) :
    lookupCount (msgs.foldl statsStep acc).hour_hist h =
      lookupCount acc.hour_hist h + msgs.countP (fun m => histBucket m == some h) := by
  induction msgs generalizing acc with
  | nil => simp
  | cons m ms ih =>
      simp only [List.foldl_cons, List.countP_cons]
      rw [ih]
      cases hts : tsOf m with
      | none =>
          have hhb : histBucket m = none := by rw [histBucket_eq, hts]; rfl
          simp [statsStep, hts, hhb]
      | some ts =>
          have hhb : histBucket m = some (hourOf ts) := by rw [histBucket_eq, hts]; rfl
          have hb : lookupCount (statsStep acc m).hour_hist h =
              lookupCount acc.hour_hist h + (if hourOf ts = h then 1 else 0) := by
            simpa [statsStep, hts] using lookupCount_bump acc.hour_hist (hourOf ts) h
          rw [hb, hhb]
          by_cases hc : hourOf ts = h
          · simp [hc]
            omega
          · simp [hc]

theorem stats_foldl_user_nodup (msgs : List SMsg) (acc : StatsAcc)
    (h : (acc.count_by_user.map Prod.fst).Nodup) :
    ((msgs.foldl statsStep acc).count_by_user.map Prod.fst).Nodup := by
  induction msgs generalizing acc with
  | nil => simpa using h
  | cons m ms ih =>
      simp only [List.foldl_cons]
      exact ih _ (by simpa [statsStep] using bump_keys_nodup (userKey m) h)

/-- Claim C2 counterexample: a message with a missing created_at field is not
excluded from the hourly histogram; it is counted in hour bucket 0, because
int(m.get("created_at") or 0) coerces the missing value to timestamp 0. -/
theorem C2_counterexample :
    c2missing.created_at = none ∧
    (stats_from_messages [c2missing]).hour_hist = [(0, 1)] ∧
    (stats_from_messages [c2missing]).hour_hist ≠ [] := by
  refine ⟨rfl, by decide, by decide⟩

/-- Claim C2 (amended): an item with an unparsable created_at is excluded
from the hourly histogram, while an item with a missing created_at is counted
in hour bucket 0; either way every item is tallied for top_posters
(each reported top-poster count equals the number of messages with that
sender key, regardless of timestamps), and the histogram is sorted by hour
ascending. -/
theorem C2_amended (msgs : List SMsg) :
    (stats_from_messages msgs).hour_hist.Pairwise (fun p q => p.1 ≤ q.1) ∧
    (∀ h : Int, lookupCount (stats_from_messages msgs).hour_hist h =
      msgs.countP (fun m => histBucket m == some h)) ∧
    (∀ p ∈ (stats_from_messages msgs).top_posters,
      p.2 = msgs.countP (fun m => userKey m == p.1)) ∧
    (∀ m : SMsg, m.created_at = none → histBucket m = some 0) := by
  have hhh : (stats_from_messages msgs).hour_hist =
      sortAsc Prod.fst (msgs.foldl statsStep ⟨[], [], []⟩).hour_hist := by
    simp [stats_from_messages]
  have htp : (stats_from_messages msgs).top_posters =
      (sortDesc Prod.snd (msgs.foldl statsStep ⟨[], [], []⟩).count_by_user).take 10 := by
    simp [stats_from_messages]
  refine ⟨?_, ?_, ?_, ?_⟩
  · rw [hhh]
    exact sortAsc_pairwise Prod.fst _
  · intro h
    rw [hhh, lookupCount_perm (sortAsc_perm Prod.fst _) h]
    simpa [lookupCount] using stats_foldl_hist msgs ⟨[], [], []⟩ h
  · intro p hp
    rw [htp] at hp
    have hp1 : p ∈ sortDesc Prod.snd (msgs.foldl statsStep ⟨[], [], []⟩).count_by_user :=
      List.mem_of_mem_take hp
    have hp2 : p ∈ (msgs.foldl statsStep ⟨[], [], []⟩).count_by_user :=
      (sortDesc_perm Prod.snd _).mem_iff.mp hp1
    have hnd : (((msgs.foldl statsStep ⟨[], [], []⟩).count_by_user).map Prod.fst).Nodup :=
      stats_foldl_user_nodup msgs ⟨[], [], []⟩ (by simp)
    have := mem_eq_lookupCount hnd hp2
    rw [this]
    simpa [lookupCount] using stats_foldl_user msgs ⟨[], [], []⟩ p.1
  · intro m hm
    simp [histBucket, hm]

theorem C2_witness :
    lookupCount (stats_from_messages [c2missing, c2bad]).hour_hist 0 = 1 :=
  ((C2_amended [c2missing, c2bad]).2.1 0).trans (by decide)

/-- Claim C8: the most_liked list contains the top 10 items ordered by like
count (the length of favorited_by) descending: it is sorted descending, every
item left out has a like count no larger than every item kept, ties preserve
the original sequence order (for each like count, the kept items with that
count form an initial block of the input items with that count, in input
order), and the list holds min 10 n items for an input of n items. -/
theorem C8_most_liked (msgs : List SMsg) :
    ((stats_from_messages msgs).most_liked).Pairwise (fun p q => q.1 ≤ p.1) ∧
    (∃ rest, List.Perm ((stats_from_messages msgs).most_liked ++ rest)
        (msgs.map fun m => (m.favorited_by.length, m)) ∧
      ∀ p ∈ rest, ∀ q ∈ (stats_from_messages msgs).most_liked, p.1 ≤ q.1) ∧
    (∀ c : Nat, ∃ t, ((stats_from_messages msgs).most_liked).filter (fun p => p.1 == c) ++ t =
        (msgs.map fun m => (m.favorited_by.length, m)).filter (fun p => p.1 == c)) ∧
    (stats_from_messages msgs).most_liked.length = min 10 msgs.length := by
  have hml : (stats_from_messages msgs).most_liked =
      (sortDesc Prod.fst (msgs.map fun m => (m.favorited_by.length, m))).take 10 := by
    simp [stats_from_messages, stats_foldl_likes]
  have hpair := sortDesc_pairwise Prod.fst (msgs.map fun m => (m.favorited_by.length, m))
  have hperm := sortDesc_perm Prod.fst (msgs.map fun m => (m.favorited_by.length, m))
  refine ⟨?_, ?_, ?_, ?_⟩
  · rw [hml]
    exact hpair.sublist (List.take_sublist 10 _)
  · refine ⟨(sortDesc Prod.fst (msgs.map fun m => (m.favorited_by.length, m))).drop 10, ?_, ?_⟩
    · rw [hml, List.take_append_drop]
      exact hperm
    · intro p hp q hq
      rw [hml] at hq
      exact pairwise_take_drop hpair 10 q hq p hp
  · intro c
    refine ⟨((sortDesc Prod.fst (msgs.map fun m => (m.favorited_by.length, m))).drop 10).filter
      (fun p => p.1 == c), ?_⟩
    rw [hml, ← List.filter_append, List.take_append_drop]
    exact sortDesc_filter Prod.fst _ c
  · rw [hml, List.length_take, hperm.length_eq, List.length_map]

theorem C8_witness :
    (stats_from_messages [c2missing, c2bad]).most_liked.length =
      min 10 (List.length [c2missing, c2bad]) :=
  (C8_most_liked [c2missing, c2bad]).2.2.2

theorem C9_witness :
    get_group_messages_latest (fetchSlice c5src) 0 = ([], []) ∧
    get_direct_messages (fetchSlice c5src) (-3) = ([], []) :=
  ⟨(C9_nonpositive_limit (fetchSlice c5src) 0 (by decide)).1,
   (C9_nonpositive_limit (fetchSlice c5src) (-3) (by decide)).2⟩

end GroupMe
